import Mathlib

/-!
Verification development for the cloud-data-sync repository.

The embedding models:
- the database package (file_metadata table with its UNIQUE(mapping_id,
  object_name) constraint, CRUD operations, and schema migrations) as a pure
  association-list store;
- the sync package (Synchronizer.SyncBuckets, SyncAll, updateObjectMetadata,
  removeDeletedObjects) as recursive functions over an environment of
  backend/DB failure oracles and an explicit world state (store contents plus
  the set of object names present in the target bucket).

Backend calls (ListObjects, GetObject, UploadObject, DeleteObject,
EnsureBucketExists) and provider resolution are modelled by oracles in Env:
each oracle tells whether the corresponding call succeeds, matching the fact
that the Go engine only branches on the error result of these calls.
Timestamps are modelled as integers (time.Time compared with Equal), sizes as
integers, and time.Now as an Env field.
-/

namespace CloudDataSync

/-- Mirror of interfaces.ObjectInfo (fields consulted by the sync engine;
the Name and Bucket fields duplicate the map key and bucket argument and the
Metadata map is never read by the engine). -/
structure ObjectInfo where
  size : Int
  contentType : String
  lastModified : Int
  etag : String
deriving Repr, DecidableEq

/-- Mirror of database.FileMetadata (the sqlite AUTOINCREMENT surrogate id is
omitted: it is never consulted by any query or by the engine). -/
structure FileMetadata where
  mappingID : String
  objectName : String
  size : Int
  lastModified : Int
  etag : String
  contentType : String
  lastSynced : Int
  syncStatus : String
deriving Repr, DecidableEq

/-- The file_metadata table: a list of rows. -/
abbrev Store := List FileMetadata

/-- Row selection by the composite key, as in the WHERE clauses
mapping_id = ? AND object_name = ?. -/
def keyMatches (mid oname : String) (m : FileMetadata) : Bool :=
  m.mappingID == mid && m.objectName == oname

/-- Mirror of DB.GetFileMetadata: point lookup by (mapping_id, object_name);
returns none (not an error) when no row matches. -/
def GetFileMetadata (s : Store) (mid oname : String) : Option FileMetadata :=
  s.find? (keyMatches mid oname)

/-- The SET clause of the upsert: replaces every column except the key
columns (size, last_modified, etag, content_type, last_synced, sync_status). -/
def overwriteFields (m new : FileMetadata) : FileMetadata :=
  { m with size := new.size, lastModified := new.lastModified, etag := new.etag,
           contentType := new.contentType, lastSynced := new.lastSynced,
           syncStatus := new.syncStatus }

/-- Mirror of DB.UpsertFileMetadata: INSERT ... ON CONFLICT(mapping_id,
object_name) DO UPDATE SET all non-key columns. -/
def UpsertFileMetadata (s : Store) (new : FileMetadata) : Store :=
  if s.any (keyMatches new.mappingID new.objectName) then
    s.map (fun m => if keyMatches new.mappingID new.objectName m then overwriteFields m new else m)
  else
    s ++ [new]

/-- Mirror of DB.DeleteFileMetadata: DELETE WHERE mapping_id = ? AND
object_name = ?; deleting an absent key is not an error. -/
def DeleteFileMetadata (s : Store) (mid oname : String) : Store :=
  s.filter (fun m => !(keyMatches mid oname m))

/-- Mirror of DB.ListFileMetadataByMapping: SELECT ... WHERE mapping_id = ?. -/
def ListFileMetadataByMapping (s : Store) (mid : String) : List FileMetadata :=
  s.filter (fun m => m.mappingID == mid)

/-- The UNIQUE(mapping_id, object_name) constraint of the table: the list of
composite keys has no duplicate. -/
def StoreWF (s : Store) : Prop :=
  (s.map (fun m => (m.mappingID, m.objectName))).Nodup

instance (s : Store) : Decidable (StoreWF s) := by
  unfold StoreWF; infer_instance

/-- Mirror of config.BucketMapping. -/
structure BucketMapping where
  sourceProviderID : String
  sourceBucket : String
  targetProviderID : String
  targetBucket : String
deriving Repr, DecidableEq

/-- The mappingID computed at the top of SyncBuckets via fmt.Sprintf. -/
def mappingKey (m : BucketMapping) : String :=
  m.sourceProviderID ++ ":" ++ m.sourceBucket ++ "->" ++ m.targetProviderID ++ ":" ++ m.targetBucket

/-- Environment of oracle outcomes for one SyncBuckets call: which provider
resolutions, backend calls and DB reads succeed, the two listings, and the
current time used for LastSynced. -/
structure Env where
  srcProviderOK : Bool
  tgtProviderOK : Bool
  listSource : Except String (List (String × ObjectInfo))
  listTarget : Except String (List String)
  ensureBucketOK : Bool
  dbGetOK : String → Bool
  getObjectOK : String → Bool
  uploadOK : String → Bool
  deleteOK : String → Bool
  now : Int

/-- Mutable world state threaded through a run: the metadata store contents
and the set of object names currently present in the target bucket. -/
structure World where
  db : Store
  target : List String
deriving DecidableEq

/-- The FileMetadata record built by updateObjectMetadata from the source
descriptor, a status string and time.Now. -/
def metadataRecord (mid oname : String) (info : ObjectInfo) (status : String) (now : Int) :
    FileMetadata :=
  { mappingID := mid, objectName := oname, size := info.size,
    lastModified := info.lastModified, etag := info.etag,
    contentType := info.contentType, lastSynced := now, syncStatus := status }

/-- Mirror of Synchronizer.updateObjectMetadata: build the record and upsert
it (an upsert error is only logged in Go; the pure store cannot fail). -/
def updateObjectMetadata (s : Store) (mid oname : String) (info : ObjectInfo)
    (status : String) (now : Int) : Store :=
  UpsertFileMetadata s (metadataRecord mid oname info status now)

/-- The per-object freshness decision of SyncBuckets (lines 111-128):
needsSync starts true and is cleared only when a stored record exists whose
LastModified and ETag equal the source descriptor and whose SyncStatus is
success. A DB read error yields a nil record in Go, hence the none case. -/
def needsSync (stored : Option FileMetadata) (src : ObjectInfo) : Bool :=
  match stored with
  | none => true
  | some m => !(m.lastModified == src.lastModified && m.etag == src.etag && m.syncStatus == "success")

/-- The three counters of the object synchronization phase. -/
structure SyncCounters where
  synced : Nat
  skipped : Nat
  errored : Nat
deriving Repr, DecidableEq

/-- State threaded through the per-object loop of SyncBuckets. -/
structure LoopState where
  db : Store
  target : List String
  counters : SyncCounters
deriving DecidableEq

/-- Uploading an object makes its name present in the target bucket
(overwriting if already present, so no duplicate name is created). -/
def insertName (tgt : List String) (n : String) : List String :=
  if n ∈ tgt then tgt else tgt ++ [n]

/-- One iteration of the per-object loop of SyncBuckets: fetch the stored
record (a DB read error is treated as absence), decide needsSync, then either
skip, or stream the object and record success / failed_get / failed_upload. -/
def syncObjectStep (env : Env) (mid oname : String) (info : ObjectInfo) (st : LoopState) :
    LoopState :=
  let stored := if env.dbGetOK oname then GetFileMetadata st.db mid oname else none
  if needsSync stored info then
    if env.getObjectOK oname then
      if env.uploadOK oname then
        { db := updateObjectMetadata st.db mid oname info "success" env.now,
          target := insertName st.target oname,
          counters := { st.counters with synced := st.counters.synced + 1 } }
      else
        { st with db := updateObjectMetadata st.db mid oname info "failed_upload" env.now,
                  counters := { st.counters with errored := st.counters.errored + 1 } }
    else
      { st with db := updateObjectMetadata st.db mid oname info "failed_get" env.now,
                counters := { st.counters with errored := st.counters.errored + 1 } }
  else
    { st with counters := { st.counters with skipped := st.counters.skipped + 1 } }

/-- The per-object loop of SyncBuckets over the source listing. -/
def syncLoop (env : Env) (mid : String) : List (String × ObjectInfo) → LoopState → LoopState
  | [], st => st
  | (oname, info) :: rest, st => syncLoop env mid rest (syncObjectStep env mid oname info st)

/-- State threaded through removeDeletedObjects: store, target contents, the
removed / error counters, and the names for which DeleteObject was called. -/
structure RemoveState where
  db : Store
  target : List String
  removed : Nat
  removeErrors : Nat
  attempted : List String
deriving DecidableEq

/-- One iteration of removeDeletedObjects: an object present in the target
listing but absent from the source listing is deleted from the target
backend; only on success is its metadata row deleted; a backend delete
failure counts an error and skips the DB deletion. -/
def removeObjectStep (env : Env) (mid : String) (sourceObjects : List (String × ObjectInfo))
    (oname : String) (st : RemoveState) : RemoveState :=
  if sourceObjects.any (fun p => p.1 == oname) then st
  else if env.deleteOK oname then
    { db := DeleteFileMetadata st.db mid oname,
      target := st.target.filter (fun n => n != oname),
      removed := st.removed + 1,
      removeErrors := st.removeErrors,
      attempted := st.attempted ++ [oname] }
  else
    { st with removeErrors := st.removeErrors + 1, attempted := st.attempted ++ [oname] }

/-- Mirror of Synchronizer.removeDeletedObjects: iterate over the names of
the target listing taken at the start of the run. -/
def removeLoop (env : Env) (mid : String) (sourceObjects : List (String × ObjectInfo)) :
    List String → RemoveState → RemoveState
  | [], st => st
  | oname :: rest, st => removeLoop env mid sourceObjects rest (removeObjectStep env mid sourceObjects oname st)

/-- Observable outcome of one successful SyncBuckets call: final world state,
the five counters, the delete calls issued, and the source object total. -/
structure SyncRun where
  db : Store
  target : List String
  synced : Nat
  skipped : Nat
  errored : Nat
  removed : Nat
  removeErrors : Nat
  attempted : List String
  totalSource : Nat
deriving DecidableEq

/-- Mirror of Synchronizer.SyncBuckets: resolve both providers, list the
source (fatal on failure), list the target (tolerated on failure, treated as
an empty listing), ensure the target bucket exists (fatal on failure),
compute the mapping key, run the per-object loop, then the deletion pass. -/
def SyncBuckets (env : Env) (mapping : BucketMapping) (w : World) : Except String SyncRun :=
  if !env.srcProviderOK then
    .error ("error getting source provider " ++ mapping.sourceProviderID)
  else if !env.tgtProviderOK then
    .error ("error getting target provider " ++ mapping.targetProviderID)
  else
    match env.listSource with
    | .error e => .error ("error listing objects from source bucket " ++ mapping.sourceBucket ++ ": " ++ e)
    | .ok sourceObjects =>
      let targetObjects := match env.listTarget with
        | .error _ => []
        | .ok l => l
      if !env.ensureBucketOK then
        .error ("error ensuring target bucket " ++ mapping.targetBucket ++ " exists")
      else
        let mid := mappingKey mapping
        let st := syncLoop env mid sourceObjects ⟨w.db, w.target, ⟨0, 0, 0⟩⟩
        let rs := removeLoop env mid sourceObjects targetObjects ⟨st.db, st.target, 0, 0, []⟩
        .ok { db := rs.db, target := rs.target,
              synced := st.counters.synced, skipped := st.counters.skipped,
              errored := st.counters.errored, removed := rs.removed,
              removeErrors := rs.removeErrors, attempted := rs.attempted,
              totalSource := sourceObjects.length }

/-- Result of Synchronizer.SyncAll: final store, the per-mapping outcomes in
order, and the function's return value (always nil in Go). -/
structure SyncAllResult where
  db : Store
  outcomes : List (BucketMapping × Except String SyncRun)
  ret : Except String Unit

/-- Mirror of Synchronizer.SyncAll: call SyncBuckets once per configured
mapping in list order; on error, log and continue with the next mapping;
finally return nil. Each mapping gets its own environment and initial target
contents; the metadata store is shared and threaded through. -/
def SyncAll (envOf : BucketMapping → Env × List String) :
    List BucketMapping → Store → SyncAllResult
  | [], db => { db := db, outcomes := [], ret := .ok () }
  | m :: rest, db =>
    let env := (envOf m).1
    match SyncBuckets env m ⟨db, (envOf m).2⟩ with
    | .error e =>
      let r := SyncAll envOf rest db
      { r with outcomes := (m, .error e) :: r.outcomes }
    | .ok run =>
      let r := SyncAll envOf rest run.db
      { r with outcomes := (m, .ok run) :: r.outcomes }

/-! Schema migrations of the database package. -/

/-- Current schema version constant of the database package. -/
def currentSchemaVersion : Nat := 2

/-- A row of the oldest legacy file_metadata table, keyed by bucket_name. -/
structure LegacyBucketRow where
  bucketName : String
  objectName : String
  size : Int
  lastModified : Int
  etag : String
  contentType : String
  lastSynced : Int
  syncStatus : String
deriving Repr, DecidableEq

/-- A row of the intermediate legacy file_metadata table, keyed by
source_bucket and target_bucket. -/
structure LegacySTRow where
  sourceBucket : String
  targetBucket : String
  objectName : String
  size : Int
  lastModified : Int
  etag : String
  contentType : String
  lastSynced : Int
  syncStatus : String
deriving Repr, DecidableEq

/-- The possible shapes of the file_metadata table, distinguished by the
column checks of applyMigration (bucket_name, source_bucket, mapping_id). -/
inductive FMTable
  | legacyBucket (rows : List LegacyBucketRow)
  | legacySourceTarget (rows : List LegacySTRow)
  | current (rows : List FileMetadata)
deriving DecidableEq

/-- On-disk database state: the persisted schema version (MAX(version) of
schema_migrations, 0 when absent) and the file_metadata table when present. -/
structure MetaDB where
  version : Nat
  table : Option FMTable
deriving DecidableEq

/-- Migration 2 key synthesis for the bucket_name legacy schema:
mapping_id = 'default:' || bucket_name || '->default:' || bucket_name. -/
def rekeyBucketRow (r : LegacyBucketRow) : FileMetadata :=
  { mappingID := "default:" ++ r.bucketName ++ "->default:" ++ r.bucketName,
    objectName := r.objectName, size := r.size, lastModified := r.lastModified,
    etag := r.etag, contentType := r.contentType, lastSynced := r.lastSynced,
    syncStatus := r.syncStatus }

/-- Migration 2 key synthesis for the source_bucket legacy schema:
mapping_id = 'default:' || source_bucket || '->default:' || target_bucket. -/
def rekeySTRow (r : LegacySTRow) : FileMetadata :=
  { mappingID := "default:" ++ r.sourceBucket ++ "->default:" ++ r.targetBucket,
    objectName := r.objectName, size := r.size, lastModified := r.lastModified,
    etag := r.etag, contentType := r.contentType, lastSynced := r.lastSynced,
    syncStatus := r.syncStatus }

/-- Semantics of one INSERT OR IGNORE: a row whose composite key is already
present in the new table is skipped. -/
def insertOrIgnore (acc : List FileMetadata) (r : FileMetadata) : List FileMetadata :=
  if acc.any (keyMatches r.mappingID r.objectName) then acc else acc ++ [r]

/-- INSERT OR IGNORE of a whole SELECT, rows in table order. -/
def insertOrIgnoreAll (rows : List FileMetadata) : List FileMetadata :=
  rows.foldl insertOrIgnore []

/-- Mirror of DB.applyMigration: the table transformation of one migration
version. Version 1 creates the current table only when neither legacy column
is present (CREATE TABLE IF NOT EXISTS). Version 2 creates the current table
when the table is absent, does nothing when mapping_id already exists, and
otherwise rebuilds the table from the legacy rows with synthesized keys via
INSERT OR IGNORE. -/
def applyMigration (version : Nat) (t : Option FMTable) : Option FMTable :=
  match version with
  | 1 =>
    match t with
    | none => some (.current [])
    | some (.legacyBucket _) => t
    | some (.legacySourceTarget _) => t
    | some (.current _) => t
  | 2 =>
    match t with
    | none => some (.current [])
    | some (.current _) => t
    | some (.legacyBucket rows) => some (.current (insertOrIgnoreAll (rows.map rekeyBucketRow)))
    | some (.legacySourceTarget rows) => some (.current (insertOrIgnoreAll (rows.map rekeySTRow)))
  | _ => t

/-- The ascending list of versions applied by the migration loop:
currentVersion + 1 up to currentSchemaVersion. -/
def migrationList (fromVersion : Nat) : List Nat :=
  List.range' (fromVersion + 1) (currentSchemaVersion - fromVersion)

/-- The migration loop body inside the transaction: apply each version in
order; a failing migration aborts the whole sequence. The oracle tells which
migration versions fail. -/
def runMigrationSeq (fail : Nat → Bool) : List Nat → Option FMTable → Except String (Option FMTable)
  | [], t => .ok t
  | v :: rest, t =>
    if fail v then .error ("error applying migration " ++ toString v)
    else runMigrationSeq fail rest (applyMigration v t)

/-- Outcome of opening the store: whether open succeeded and the resulting
on-disk state. -/
structure OpenResult where
  ok : Bool
  db : MetaDB
deriving DecidableEq

/-- Mirror of DB.applyMigrations: no-op when the stored version is current;
otherwise run the missing migrations in ascending order inside a single
transaction. On any failure the transaction is rolled back, leaving the
on-disk state unchanged; on success the version records are committed
together with the table changes. -/
def applyMigrations (fail : Nat → Bool) (d : MetaDB) : OpenResult :=
  if currentSchemaVersion ≤ d.version then ⟨true, d⟩
  else
    match runMigrationSeq fail (migrationList d.version) d.table with
    | .error _ => ⟨false, d⟩
    | .ok t => ⟨true, { version := currentSchemaVersion, table := t }⟩

/-! Helper lemmas about the store operations. -/

theorem keyMatches_self (r : FileMetadata) : keyMatches r.mappingID r.objectName r = true := by
  simp [keyMatches]

theorem keyMatches_iff (mid oname : String) (m : FileMetadata) :
    keyMatches mid oname m = true ↔ m.mappingID = mid ∧ m.objectName = oname := by
  simp [keyMatches]

theorem overwriteFields_of_match (m r : FileMetadata)
    (h : keyMatches r.mappingID r.objectName m = true) : overwriteFields m r = r := by
  rw [keyMatches_iff] at h
  cases m; cases r
  simp only [overwriteFields]
  simp_all

theorem keyMatches_overwrite (mid oname : String) (m r : FileMetadata) :
    keyMatches mid oname (overwriteFields m r) = keyMatches mid oname m := by
  cases m; cases r; simp [keyMatches, overwriteFields]

theorem keyMatches_ne_of_match (mid oname : String) (m r : FileMetadata)
    (hm : keyMatches r.mappingID r.objectName m = true)
    (h : ¬(r.mappingID = mid ∧ r.objectName = oname)) :
    keyMatches mid oname m = false := by
  rw [keyMatches_iff] at hm
  cases hk : keyMatches mid oname m with
  | false => rfl
  | true =>
    rw [keyMatches_iff] at hk
    exact absurd ⟨hm.1 ▸ hk.1, hm.2 ▸ hk.2⟩ h

theorem find?_map_overwrite (r : FileMetadata) :
    ∀ (s : Store), s.any (keyMatches r.mappingID r.objectName) = true →
    (s.map (fun m => if keyMatches r.mappingID r.objectName m then overwriteFields m r else m)).find?
        (keyMatches r.mappingID r.objectName) = some r := by
  intro s
  induction s with
  | nil => intro h; simp at h
  | cons a t ih =>
    intro h
    cases ha : keyMatches r.mappingID r.objectName a with
    | true =>
      rw [List.map_cons, if_pos ha,
        List.find?_cons_of_pos _ (by rw [overwriteFields_of_match a r ha]; exact keyMatches_self r),
        overwriteFields_of_match a r ha]
    | false =>
      rw [List.map_cons, if_neg (by simp [ha]), List.find?_cons_of_neg _ (by simp [ha])]
      apply ih
      rw [List.any_cons, ha, Bool.false_or] at h
      exact h

theorem find?_map_overwrite_other (r : FileMetadata) (mid oname : String)
    (h : ¬(r.mappingID = mid ∧ r.objectName = oname)) :
    ∀ (s : Store),
    (s.map (fun m => if keyMatches r.mappingID r.objectName m then overwriteFields m r else m)).find?
        (keyMatches mid oname) = s.find? (keyMatches mid oname) := by
  intro s
  induction s with
  | nil => simp
  | cons a t ih =>
    cases ha : keyMatches r.mappingID r.objectName a with
    | true =>
      have hna : keyMatches mid oname a = false := keyMatches_ne_of_match mid oname a r ha h
      rw [List.map_cons, if_pos ha,
        List.find?_cons_of_neg _ (by rw [keyMatches_overwrite, hna]; exact Bool.false_ne_true),
        List.find?_cons_of_neg _ (by rw [hna]; exact Bool.false_ne_true)]
      exact ih
    | false =>
      rw [List.map_cons, if_neg (by simp [ha])]
      cases hma : keyMatches mid oname a with
      | true =>
        rw [List.find?_cons_of_pos _ hma, List.find?_cons_of_pos _ hma]
      | false =>
        rw [List.find?_cons_of_neg _ (by simp [hma]), List.find?_cons_of_neg _ (by simp [hma])]
        exact ih

theorem get_upsert_self (s : Store) (r : FileMetadata) :
    GetFileMetadata (UpsertFileMetadata s r) r.mappingID r.objectName = some r := by
  unfold UpsertFileMetadata GetFileMetadata
  by_cases hany : s.any (keyMatches r.mappingID r.objectName) = true
  · rw [if_pos hany]
    exact find?_map_overwrite r s hany
  · rw [if_neg hany, List.find?_append]
    have hs : s.find? (keyMatches r.mappingID r.objectName) = none :=
      List.find?_eq_none.mpr (fun x hx hkx => hany (List.any_eq_true.mpr ⟨x, hx, hkx⟩))
    rw [hs, List.find?_cons_of_pos _ (keyMatches_self r)]
    rfl

theorem get_upsert_other (s : Store) (r : FileMetadata) (mid oname : String)
    (h : ¬(r.mappingID = mid ∧ r.objectName = oname)) :
    GetFileMetadata (UpsertFileMetadata s r) mid oname = GetFileMetadata s mid oname := by
  unfold UpsertFileMetadata GetFileMetadata
  by_cases hany : s.any (keyMatches r.mappingID r.objectName) = true
  · rw [if_pos hany]
    exact find?_map_overwrite_other r mid oname h s
  · have hr : keyMatches mid oname r = false := by
      cases hk : keyMatches mid oname r with
      | false => rfl
      | true =>
        rw [keyMatches_iff] at hk
        exact absurd ⟨hk.1, hk.2⟩ h
    rw [if_neg hany, List.find?_append, List.find?_cons_of_neg _ (by simp [hr])]
    cases hfind : s.find? (keyMatches mid oname) <;> rfl

theorem get_delete_self (s : Store) (mid oname : String) :
    GetFileMetadata (DeleteFileMetadata s mid oname) mid oname = none := by
  unfold GetFileMetadata DeleteFileMetadata
  rw [List.find?_eq_none]
  intro x hx
  rw [List.mem_filter] at hx
  simp only [Bool.not_eq_true'] at hx
  intro hk
  rw [hx.2] at hk
  exact Bool.false_ne_true hk

theorem get_delete_other (s : Store) (dmid dname mid oname : String)
    (h : ¬(dmid = mid ∧ dname = oname)) :
    GetFileMetadata (DeleteFileMetadata s dmid dname) mid oname = GetFileMetadata s mid oname := by
  unfold GetFileMetadata DeleteFileMetadata
  induction s with
  | nil => simp
  | cons a t ih =>
    cases hd : keyMatches dmid dname a with
    | true =>
      have hna : keyMatches mid oname a = false := by
        rw [keyMatches_iff] at hd
        cases hk : keyMatches mid oname a with
        | false => rfl
        | true =>
          rw [keyMatches_iff] at hk
          exact absurd ⟨hd.1 ▸ hk.1, hd.2 ▸ hk.2⟩ h
      rw [List.filter_cons, if_neg (by simp [hd]),
        List.find?_cons_of_neg _ (by simp [hna])]
      exact ih
    | false =>
      rw [List.filter_cons, if_pos (by simp [hd])]
      cases hma : keyMatches mid oname a with
      | true =>
        rw [List.find?_cons_of_pos _ hma, List.find?_cons_of_pos _ hma]
      | false =>
        rw [List.find?_cons_of_neg _ (by simp [hma]), List.find?_cons_of_neg _ (by simp [hma])]
        exact ih

/-! Helper lemmas about the per-object loop. -/

theorem syncObjectStep_counter_sum (env : Env) (mid oname : String) (info : ObjectInfo)
    (st : LoopState) :
    (syncObjectStep env mid oname info st).counters.synced
      + (syncObjectStep env mid oname info st).counters.skipped
      + (syncObjectStep env mid oname info st).counters.errored
    = st.counters.synced + st.counters.skipped + st.counters.errored + 1 := by
  unfold syncObjectStep
  by_cases h1 : needsSync (if env.dbGetOK oname then GetFileMetadata st.db mid oname else none) info = true
  · by_cases h2 : env.getObjectOK oname = true
    · by_cases h3 : env.uploadOK oname = true
      · rw [if_pos h1, if_pos h2, if_pos h3]
        dsimp only
        omega
      · rw [if_pos h1, if_pos h2, if_neg h3]
        dsimp only
        omega
    · rw [if_pos h1, if_neg h2]
      dsimp only
      omega
  · rw [if_neg h1]
    dsimp only
    omega

theorem syncLoop_counter_sum (env : Env) (mid : String) :
    ∀ (objs : List (String × ObjectInfo)) (st : LoopState),
    (syncLoop env mid objs st).counters.synced
      + (syncLoop env mid objs st).counters.skipped
      + (syncLoop env mid objs st).counters.errored
    = st.counters.synced + st.counters.skipped + st.counters.errored + objs.length := by
  intro objs
  induction objs with
  | nil => intro st; simp [syncLoop]
  | cons p rest ih =>
    intro st
    obtain ⟨oname, info⟩ := p
    simp only [syncLoop, List.length_cons]
    rw [ih]
    rw [syncObjectStep_counter_sum]
    omega

/-- The per-object loop never inspects the target listing field of the
environment. -/
theorem syncLoop_listTarget_irrel (env : Env) (t : Except String (List String)) (mid : String) :
    ∀ (objs : List (String × ObjectInfo)) (st : LoopState),
    syncLoop { env with listTarget := t } mid objs st = syncLoop env mid objs st := by
  intro objs
  induction objs with
  | nil => intro st; rfl
  | cons p rest ih =>
    intro st
    obtain ⟨n, i⟩ := p
    simp only [syncLoop]
    rw [show syncObjectStep { env with listTarget := t } mid n i st
        = syncObjectStep env mid n i st from rfl]
    exact ih _

/-- The deletion pass never inspects the target listing field of the
environment. -/
theorem removeLoop_listTarget_irrel (env : Env) (t : Except String (List String)) (mid : String)
    (src : List (String × ObjectInfo)) :
    ∀ (tgtList : List String) (st : RemoveState),
    removeLoop { env with listTarget := t } mid src tgtList st = removeLoop env mid src tgtList st := by
  intro tgtList
  induction tgtList with
  | nil => intro st; rfl
  | cons n rest ih =>
    intro st
    simp only [removeLoop]
    rw [show removeObjectStep { env with listTarget := t } mid src n st
        = removeObjectStep env mid src n st from rfl]
    exact ih _

/-! Claim theorems. -/

/-- C5: the mappingKey used to partition metadata is computed
deterministically from the mapping's four identifying fields as the string
sourceProviderId:sourceBucket->targetProviderId:targetBucket, so two runs
over the same mapping always use the same key. -/
theorem C5_mappingKey_deterministic (m₁ m₂ : BucketMapping)
    (h : m₁.sourceProviderID = m₂.sourceProviderID ∧ m₁.sourceBucket = m₂.sourceBucket ∧
         m₁.targetProviderID = m₂.targetProviderID ∧ m₁.targetBucket = m₂.targetBucket) :
    mappingKey m₁ = m₁.sourceProviderID ++ ":" ++ m₁.sourceBucket ++ "->"
      ++ m₁.targetProviderID ++ ":" ++ m₁.targetBucket
    ∧ mappingKey m₁ = mappingKey m₂ := by
  obtain ⟨h1, h2, h3, h4⟩ := h
  refine ⟨rfl, ?_⟩
  unfold mappingKey
  rw [h1, h2, h3, h4]

/-- Witness for C5 at a concrete mapping. -/
theorem C5_mappingKey_deterministic_witness :
    mappingKey ⟨"gcs", "photos", "minio", "backup"⟩ = "gcs" ++ ":" ++ "photos" ++ "->"
      ++ "minio" ++ ":" ++ "backup"
    ∧ mappingKey ⟨"gcs", "photos", "minio", "backup"⟩
        = mappingKey ⟨"gcs", "photos", "minio", "backup"⟩ :=
  C5_mappingKey_deterministic ⟨"gcs", "photos", "minio", "backup"⟩
    ⟨"gcs", "photos", "minio", "backup"⟩ ⟨rfl, rfl, rfl, rfl⟩

/-- C8: SyncAll invokes the Engine once per mapping in list order (the
outcome list pairs each configured mapping, in order, with the result of its
SyncBuckets call), and the driver call as a whole never returns an error,
including when a mapping fails or the mapping list is empty. -/
theorem C8_syncAll_isolates_failures (envOf : BucketMapping → Env × List String)
    (mappings : List BucketMapping) (db : Store) :
    (SyncAll envOf mappings db).ret = .ok ()
    ∧ (SyncAll envOf mappings db).outcomes.map Prod.fst = mappings := by
  induction mappings generalizing db with
  | nil => exact ⟨rfl, rfl⟩
  | cons m rest ih =>
    cases h : SyncBuckets (envOf m).1 m ⟨db, (envOf m).2⟩ with
    | error e =>
      simp only [SyncAll, h, List.map_cons]
      exact ⟨(ih db).1, by rw [(ih db).2]⟩
    | ok run =>
      simp only [SyncAll, h, List.map_cons]
      exact ⟨(ih run.db).1, by rw [(ih run.db).2]⟩

/-- C10: for every run of SyncBuckets whose per-object loop completes, each
source object is counted in exactly one of the three sync-phase counters, so
synced + skipped + errored equals the total number of source objects. -/
theorem C10_counters_partition (env : Env) (mapping : BucketMapping) (w : World) (run : SyncRun)
    (h : SyncBuckets env mapping w = .ok run) :
    run.synced + run.skipped + run.errored = run.totalSource := by
  unfold SyncBuckets at h
  split at h
  · exact absurd h (by simp)
  · split at h
    · exact absurd h (by simp)
    · split at h
      · exact absurd h (by simp)
      · rename_i sourceObjects _
        split at h
        · split at h
          · exact absurd h (by simp)
          · simp only [Except.ok.injEq] at h
            subst h
            dsimp only
            rw [syncLoop_counter_sum]
            simp
        · split at h
          · exact absurd h (by simp)
          · simp only [Except.ok.injEq] at h
            subst h
            dsimp only
            rw [syncLoop_counter_sum]
            simp

/-! Concrete sample inputs used by the witness theorems. -/

/-- An environment in which every provider resolution, backend call and DB
read succeeds. -/
def envAllOK (src : List (String × ObjectInfo)) (tgt : Except String (List String)) : Env :=
  { srcProviderOK := true, tgtProviderOK := true, listSource := .ok src,
    listTarget := tgt, ensureBucketOK := true, dbGetOK := fun _ => true,
    getObjectOK := fun _ => true, uploadOK := fun _ => true,
    deleteOK := fun _ => true, now := 0 }

def sampleInfo : ObjectInfo :=
  { size := 4, contentType := "text/plain", lastModified := 10, etag := "e1" }

def sampleMapping : BucketMapping := ⟨"gcs", "src", "minio", "dst"⟩

/-- The run produced by a fully successful sync of one new object. -/
def sampleRunA : SyncRun :=
  { db := [metadataRecord (mappingKey sampleMapping) "a" sampleInfo "success" 0],
    target := ["a"], synced := 1, skipped := 0, errored := 0, removed := 0,
    removeErrors := 0, attempted := [], totalSource := 1 }

/-- Witness for C10 on a concrete one-object run. -/
theorem C10_counters_partition_witness :
    sampleRunA.synced + sampleRunA.skipped + sampleRunA.errored = sampleRunA.totalSource :=
  C10_counters_partition (envAllOK [("a", sampleInfo)] (.ok [])) sampleMapping ⟨[], []⟩
    sampleRunA (by rfl)

/-- C1: a source object is re-transferred exactly when the stored record is
absent, or its etag differs, or its lastModified differs, or its status is
not success; a record in a failed status is re-attempted even when etag and
lastModified are unchanged; and a record matching on all three is counted as
skipped with no transfer and no state change. -/
theorem C1_per_object_decision (env : Env) (mid oname : String) (info : ObjectInfo)
    (st : LoopState) (hget : env.dbGetOK oname = true) :
    (needsSync (GetFileMetadata st.db mid oname) info = true ↔
      GetFileMetadata st.db mid oname = none ∨
        ∃ m, GetFileMetadata st.db mid oname = some m ∧
          (m.etag ≠ info.etag ∨ m.lastModified ≠ info.lastModified ∨ m.syncStatus ≠ "success"))
    ∧ (∀ m, GetFileMetadata st.db mid oname = some m →
        m.etag = info.etag → m.lastModified = info.lastModified → m.syncStatus ≠ "success" →
        needsSync (GetFileMetadata st.db mid oname) info = true)
    ∧ (needsSync (GetFileMetadata st.db mid oname) info = true →
        (syncObjectStep env mid oname info st).counters.synced
          + (syncObjectStep env mid oname info st).counters.errored
          = st.counters.synced + st.counters.errored + 1)
    ∧ (needsSync (GetFileMetadata st.db mid oname) info = false →
        syncObjectStep env mid oname info st
          = { st with counters := { st.counters with skipped := st.counters.skipped + 1 } }) := by
  have hiff : needsSync (GetFileMetadata st.db mid oname) info = true ↔
      GetFileMetadata st.db mid oname = none ∨
        ∃ m, GetFileMetadata st.db mid oname = some m ∧
          (m.etag ≠ info.etag ∨ m.lastModified ≠ info.lastModified ∨ m.syncStatus ≠ "success") := by
    cases hst : GetFileMetadata st.db mid oname with
    | none => simp [needsSync]
    | some m =>
      constructor
      · intro hne
        refine Or.inr ⟨m, rfl, ?_⟩
        by_contra hc
        push_neg at hc
        simp [needsSync, hc.1, hc.2.1, hc.2.2] at hne
      · intro hd
        rcases hd with hd | ⟨m', hm', hd⟩
        · exact absurd hd (by simp)
        · obtain rfl : m = m' := by injection hm'
          simp only [needsSync, Bool.not_eq_true']
          cases hb : (m.lastModified == info.lastModified && (m.etag == info.etag && m.syncStatus == "success")) with
          | false => simpa using hb
          | true =>
            simp only [Bool.and_eq_true, beq_iff_eq] at hb
            rcases hd with hd | hd | hd
            · exact absurd hb.2.1 hd
            · exact absurd hb.1 hd
            · exact absurd hb.2.2 hd
  refine ⟨hiff, ?_, ?_, ?_⟩
  · intro m hm _ _ hstat
    exact hiff.mpr (Or.inr ⟨m, hm, Or.inr (Or.inr hstat)⟩)
  · intro hns
    unfold syncObjectStep
    rw [hget]
    simp only [if_true]
    rw [if_pos hns]
    by_cases h2 : env.getObjectOK oname = true
    · by_cases h3 : env.uploadOK oname = true
      · rw [if_pos h2, if_pos h3]
        dsimp only
        omega
      · rw [if_pos h2, if_neg h3]
        dsimp only
        omega
    · rw [if_neg h2]
      dsimp only
      omega
  · intro hns
    unfold syncObjectStep
    rw [hget]
    simp only [if_true]
    rw [if_neg (by simp [hns])]

/-- Witness for C1: with an empty store the decision is needs-sync. -/
theorem C1_per_object_decision_witness :
    needsSync (GetFileMetadata ([] : Store) "k" "a") sampleInfo = true :=
  ((C1_per_object_decision (envAllOK [] (.ok [])) "k" "a" sampleInfo
      ⟨[], [], ⟨0, 0, 0⟩⟩ rfl).1).mpr (Or.inl rfl)

/-- C3: a failure listing the source bucket fails the whole mapping with an
error; a failure listing the target bucket is treated exactly as an empty
target listing; ensureBucketExists is still consulted and its failure fails
the mapping. -/
theorem C3_listing_failure_handling (env : Env) (mapping : BucketMapping) (w : World) (e : String)
    (hsp : env.srcProviderOK = true) (htp : env.tgtProviderOK = true) :
    (env.listSource = .error e →
      SyncBuckets env mapping w =
        .error ("error listing objects from source bucket " ++ mapping.sourceBucket ++ ": " ++ e))
    ∧ (SyncBuckets { env with listTarget := .error e } mapping w
        = SyncBuckets { env with listTarget := .ok [] } mapping w)
    ∧ (env.ensureBucketOK = false →
        ∀ src, env.listSource = .ok src →
        SyncBuckets env mapping w =
          .error ("error ensuring target bucket " ++ mapping.targetBucket ++ " exists")) := by
  refine ⟨?_, ?_, ?_⟩
  · intro hs
    simp [SyncBuckets, hsp, htp, hs]
  · unfold SyncBuckets
    dsimp only
    split
    · rfl
    · split
      · rfl
      · split
        · rfl
        · split
          · rfl
          · simp only [syncLoop_listTarget_irrel, removeLoop_listTarget_irrel]
  · intro hens src hsrc
    simp [SyncBuckets, hsp, htp, hsrc, hens]

/-- Witness for C3 at a concrete failing source listing. -/
theorem C3_listing_failure_handling_witness :
    SyncBuckets { envAllOK [] (.ok []) with listSource := .error "boom" } sampleMapping ⟨[], []⟩
      = .error ("error listing objects from source bucket " ++ sampleMapping.sourceBucket
          ++ ": " ++ "boom") :=
  (C3_listing_failure_handling { envAllOK [] (.ok []) with listSource := .error "boom" }
    sampleMapping ⟨[], []⟩ "boom" rfl rfl).1 rfl

/-! Well-formedness of the store under its operations. -/

theorem metaKey_overwrite (m r : FileMetadata) :
    ((overwriteFields m r).mappingID, (overwriteFields m r).objectName)
      = (m.mappingID, m.objectName) := by
  cases m; cases r; simp [overwriteFields]

theorem StoreWF_at_most_one (s : Store) (hwf : StoreWF s) (mid oname : String) :
    (s.filter (keyMatches mid oname)).length ≤ 1 := by
  induction s with
  | nil => simp
  | cons a t ih =>
    rw [StoreWF, List.map_cons, List.nodup_cons] at hwf
    rw [List.filter_cons]
    by_cases ha : keyMatches mid oname a = true
    · rw [if_pos ha]
      have hnil : t.filter (keyMatches mid oname) = [] := by
        rw [List.filter_eq_nil_iff]
        intro x hx hkx
        apply hwf.1
        rw [List.mem_map]
        refine ⟨x, hx, ?_⟩
        rw [keyMatches_iff] at ha hkx
        rw [hkx.1, hkx.2, ha.1, ha.2]
      rw [hnil]
      simp
    · rw [if_neg ha]
      exact ih hwf.2

theorem StoreWF_upsert (s : Store) (r : FileMetadata) (hwf : StoreWF s) :
    StoreWF (UpsertFileMetadata s r) := by
  unfold UpsertFileMetadata
  by_cases hany : s.any (keyMatches r.mappingID r.objectName) = true
  · rw [if_pos hany]
    unfold StoreWF
    have hkeys :
        (s.map (fun m => if keyMatches r.mappingID r.objectName m then overwriteFields m r else m)).map
            (fun m => (m.mappingID, m.objectName))
          = s.map (fun m => (m.mappingID, m.objectName)) := by
      rw [List.map_map]
      apply List.map_congr_left
      intro m _
      by_cases hk : keyMatches r.mappingID r.objectName m = true
      · simp only [Function.comp_apply, if_pos hk]
        exact metaKey_overwrite m r
      · simp only [Function.comp_apply, if_neg hk]
    rw [hkeys]
    exact hwf
  · rw [if_neg hany]
    unfold StoreWF
    rw [List.map_append, List.nodup_append]
    refine ⟨hwf, List.nodup_singleton _, ?_⟩
    intro k hk hk2
    simp only [List.map_cons, List.map_nil, List.mem_singleton] at hk2
    subst hk2
    rw [List.mem_map] at hk
    obtain ⟨m, hm, hkey⟩ := hk
    apply hany
    rw [List.any_eq_true]
    refine ⟨m, hm, ?_⟩
    rw [keyMatches_iff]
    rw [Prod.mk.injEq] at hkey
    exact ⟨hkey.1, hkey.2⟩

theorem StoreWF_delete (s : Store) (mid oname : String) (hwf : StoreWF s) :
    StoreWF (DeleteFileMetadata s mid oname) :=
  List.Nodup.sublist (List.Sublist.map _ (List.filter_sublist s)) hwf

theorem StoreWF_listByMapping (s : Store) (mid : String) (hwf : StoreWF s) :
    StoreWF (ListFileMetadataByMapping s mid) :=
  List.Nodup.sublist (List.Sublist.map _ (List.filter_sublist s)) hwf

/-- C7: under the UNIQUE(mapping_id, object_name) constraint, the pair
(mappingKey, objectName) identifies at most one record; upsert and delete
preserve the constraint, as does the result of listByMapping; an upsert
leaves exactly the upserted record (all mutable fields replaced in one
operation) at its own key, and changes no record at any other key. -/
theorem C7_store_key_uniqueness (s : Store) (r : FileMetadata) (mid oname : String)
    (hwf : StoreWF s) :
    (s.filter (keyMatches mid oname)).length ≤ 1
    ∧ StoreWF (UpsertFileMetadata s r)
    ∧ StoreWF (DeleteFileMetadata s mid oname)
    ∧ StoreWF (ListFileMetadataByMapping s mid)
    ∧ GetFileMetadata (UpsertFileMetadata s r) r.mappingID r.objectName = some r
    ∧ (¬(r.mappingID = mid ∧ r.objectName = oname) →
        GetFileMetadata (UpsertFileMetadata s r) mid oname = GetFileMetadata s mid oname) :=
  ⟨StoreWF_at_most_one s hwf mid oname, StoreWF_upsert s r hwf,
   StoreWF_delete s mid oname hwf, StoreWF_listByMapping s mid hwf,
   get_upsert_self s r, fun h => get_upsert_other s r mid oname h⟩

/-- A pre-existing record and its replacement used by the C7 witness. -/
def sampleMetaOld : FileMetadata :=
  { mappingID := "gcs:src->minio:dst", objectName := "a", size := 1, lastModified := 5,
    etag := "old", contentType := "text/plain", lastSynced := 6, syncStatus := "failed_upload" }

def sampleMetaNew : FileMetadata :=
  { mappingID := "gcs:src->minio:dst", objectName := "a", size := 4, lastModified := 10,
    etag := "e1", contentType := "text/plain", lastSynced := 12, syncStatus := "success" }

/-- Witness for C7: upserting over an existing record replaces it wholesale. -/
theorem C7_store_key_uniqueness_witness :
    GetFileMetadata (UpsertFileMetadata [sampleMetaOld] sampleMetaNew)
      sampleMetaNew.mappingID sampleMetaNew.objectName = some sampleMetaNew :=
  (C7_store_key_uniqueness [sampleMetaOld] sampleMetaNew "other" "b"
    (by decide)).2.2.2.2.1

/-! Lemmas about the deletion pass. -/

theorem get_delete_none (s : Store) (dmid dname mid oname : String)
    (h : GetFileMetadata s mid oname = none) :
    GetFileMetadata (DeleteFileMetadata s dmid dname) mid oname = none := by
  unfold GetFileMetadata DeleteFileMetadata at *
  rw [List.find?_eq_none] at h ⊢
  intro x hx
  exact h x (List.mem_of_mem_filter hx)

theorem removeObjectStep_inSrc (env : Env) (mid : String) (src : List (String × ObjectInfo))
    (n : String) (st : RemoveState) (hs : src.any (fun p => p.1 == n) = true) :
    removeObjectStep env mid src n st = st := by
  unfold removeObjectStep
  rw [if_pos hs]

theorem removeObjectStep_del (env : Env) (mid : String) (src : List (String × ObjectInfo))
    (n : String) (st : RemoveState) (hs : src.any (fun p => p.1 == n) = false)
    (hd : env.deleteOK n = true) :
    removeObjectStep env mid src n st =
      ⟨DeleteFileMetadata st.db mid n, st.target.filter (fun x => x != n),
       st.removed + 1, st.removeErrors, st.attempted ++ [n]⟩ := by
  unfold removeObjectStep
  rw [if_neg (by rw [hs]; exact Bool.false_ne_true), if_pos hd]

theorem removeObjectStep_delFail (env : Env) (mid : String) (src : List (String × ObjectInfo))
    (n : String) (st : RemoveState) (hs : src.any (fun p => p.1 == n) = false)
    (hd : env.deleteOK n = false) :
    removeObjectStep env mid src n st =
      { st with removeErrors := st.removeErrors + 1, attempted := st.attempted ++ [n] } := by
  unfold removeObjectStep
  rw [if_neg (by rw [hs]; exact Bool.false_ne_true),
    if_neg (by rw [hd]; exact Bool.false_ne_true)]

theorem removeLoop_attempted (env : Env) (mid : String) (src : List (String × ObjectInfo)) :
    ∀ (tgtList : List String) (st : RemoveState),
    (removeLoop env mid src tgtList st).attempted
      = st.attempted ++ tgtList.filter (fun n => !(src.any (fun p => p.1 == n))) := by
  intro tgtList
  induction tgtList with
  | nil => intro st; simp [removeLoop]
  | cons n rest ih =>
    intro st
    simp only [removeLoop]
    rw [ih, List.filter_cons]
    by_cases hs : src.any (fun p => p.1 == n) = true
    · rw [removeObjectStep_inSrc env mid src n st hs, if_neg (by simp [hs])]
    · rw [Bool.not_eq_true] at hs
      rw [if_pos (by rw [hs]; rfl)]
      by_cases hd : env.deleteOK n = true
      · rw [removeObjectStep_del env mid src n st hs hd]
        dsimp only
        rw [List.append_assoc, List.singleton_append]
      · rw [Bool.not_eq_true] at hd
        rw [removeObjectStep_delFail env mid src n st hs hd]
        dsimp only
        rw [List.append_assoc, List.singleton_append]

theorem removeLoop_removeErrors (env : Env) (mid : String) (src : List (String × ObjectInfo)) :
    ∀ (tgtList : List String) (st : RemoveState),
    (removeLoop env mid src tgtList st).removeErrors
      = st.removeErrors
        + (tgtList.filter (fun n => !(src.any (fun p => p.1 == n)) && !(env.deleteOK n))).length := by
  intro tgtList
  induction tgtList with
  | nil => intro st; simp [removeLoop]
  | cons n rest ih =>
    intro st
    simp only [removeLoop]
    rw [ih, List.filter_cons]
    by_cases hs : src.any (fun p => p.1 == n) = true
    · rw [removeObjectStep_inSrc env mid src n st hs, if_neg (by simp [hs])]
    · rw [Bool.not_eq_true] at hs
      by_cases hd : env.deleteOK n = true
      · rw [removeObjectStep_del env mid src n st hs hd, if_neg (by simp [hs, hd])]
      · rw [Bool.not_eq_true] at hd
        rw [removeObjectStep_delFail env mid src n st hs hd, if_pos (by rw [hs, hd]; rfl)]
        dsimp only
        rw [List.length_cons]
        omega

theorem removeLoop_removed_count (env : Env) (mid : String) (src : List (String × ObjectInfo)) :
    ∀ (tgtList : List String) (st : RemoveState),
    (removeLoop env mid src tgtList st).removed
      = st.removed
        + (tgtList.filter (fun n => !(src.any (fun p => p.1 == n)) && env.deleteOK n)).length := by
  intro tgtList
  induction tgtList with
  | nil => intro st; simp [removeLoop]
  | cons n rest ih =>
    intro st
    simp only [removeLoop]
    rw [ih, List.filter_cons]
    by_cases hs : src.any (fun p => p.1 == n) = true
    · rw [removeObjectStep_inSrc env mid src n st hs, if_neg (by simp [hs])]
    · rw [Bool.not_eq_true] at hs
      by_cases hd : env.deleteOK n = true
      · rw [removeObjectStep_del env mid src n st hs hd, if_pos (by rw [hs, hd]; rfl)]
        dsimp only
        rw [List.length_cons]
        omega
      · rw [Bool.not_eq_true] at hd
        rw [removeObjectStep_delFail env mid src n st hs hd, if_neg (by simp [hs, hd])]

theorem removeLoop_get_frame (env : Env) (mid : String) (src : List (String × ObjectInfo))
    (oname : String) :
    ∀ (tgtList : List String) (st : RemoveState),
    (src.any (fun p => p.1 == oname) = true ∨ oname ∉ tgtList ∨ env.deleteOK oname = false) →
    GetFileMetadata (removeLoop env mid src tgtList st).db mid oname
      = GetFileMetadata st.db mid oname := by
  intro tgtList
  induction tgtList with
  | nil => intro st _; rfl
  | cons n rest ih =>
    intro st h
    have hrest : src.any (fun p => p.1 == oname) = true ∨ oname ∉ rest ∨ env.deleteOK oname = false := by
      rcases h with h | h | h
      · exact Or.inl h
      · exact Or.inr (Or.inl (fun hm => h (List.mem_cons_of_mem n hm)))
      · exact Or.inr (Or.inr h)
    simp only [removeLoop]
    rw [ih _ hrest]
    unfold removeObjectStep
    by_cases hs : src.any (fun p => p.1 == n) = true
    · rw [if_pos hs]
    · rw [if_neg hs]
      by_cases hd : env.deleteOK n = true
      · rw [if_pos hd]
        dsimp only
        apply get_delete_other
        rintro ⟨-, rfl⟩
        rcases h with h | h | h
        · exact hs h
        · exact h (List.mem_cons_self n rest)
        · rw [h] at hd
          exact Bool.false_ne_true hd
      · rw [if_neg hd]

theorem removeLoop_get_none (env : Env) (mid : String) (src : List (String × ObjectInfo))
    (oname : String) :
    ∀ (tgtList : List String) (st : RemoveState),
    GetFileMetadata st.db mid oname = none →
    GetFileMetadata (removeLoop env mid src tgtList st).db mid oname = none := by
  intro tgtList
  induction tgtList with
  | nil => intro st h; exact h
  | cons n rest ih =>
    intro st h
    simp only [removeLoop]
    apply ih
    unfold removeObjectStep
    by_cases hs : src.any (fun p => p.1 == n) = true
    · rw [if_pos hs]; exact h
    · rw [if_neg hs]
      by_cases hd : env.deleteOK n = true
      · rw [if_pos hd]
        exact get_delete_none st.db mid n mid oname h
      · rw [if_neg hd]; exact h

theorem removeLoop_get_deleted (env : Env) (mid : String) (src : List (String × ObjectInfo))
    (oname : String) (hsrc : src.any (fun p => p.1 == oname) = false)
    (hdel : env.deleteOK oname = true) :
    ∀ (tgtList : List String) (st : RemoveState), oname ∈ tgtList →
    GetFileMetadata (removeLoop env mid src tgtList st).db mid oname = none := by
  intro tgtList
  induction tgtList with
  | nil => intro st h; exact absurd h (List.not_mem_nil oname)
  | cons n rest ih =>
    intro st hmem
    by_cases hn : n = oname
    · subst hn
      simp only [removeLoop]
      apply removeLoop_get_none
      unfold removeObjectStep
      rw [if_neg (by rw [hsrc]; exact Bool.false_ne_true), if_pos hdel]
      exact get_delete_self st.db mid n
    · rcases List.mem_cons.mp hmem with hmem | hmem
      · exact absurd hmem.symm hn
      · simp only [removeLoop]
        exact ih _ hmem

theorem removeLoop_target_subset (env : Env) (mid : String) (src : List (String × ObjectInfo)) :
    ∀ (tgtList : List String) (st : RemoveState) (n : String),
    n ∈ (removeLoop env mid src tgtList st).target → n ∈ st.target := by
  intro tgtList
  induction tgtList with
  | nil => intro st n h; exact h
  | cons x rest ih =>
    intro st n h
    have h2 := ih _ n h
    unfold removeObjectStep at h2
    by_cases hs : src.any (fun p => p.1 == x) = true
    · rwa [if_pos hs] at h2
    · rw [if_neg hs] at h2
      by_cases hd : env.deleteOK x = true
      · rw [if_pos hd] at h2
        dsimp only at h2
        exact (List.mem_filter.mp h2).1
      · rwa [if_neg hd] at h2

theorem removeLoop_target_deleted (env : Env) (mid : String) (src : List (String × ObjectInfo))
    (oname : String) (hsrc : src.any (fun p => p.1 == oname) = false)
    (hdel : env.deleteOK oname = true) :
    ∀ (tgtList : List String) (st : RemoveState), oname ∈ tgtList →
    oname ∉ (removeLoop env mid src tgtList st).target := by
  intro tgtList
  induction tgtList with
  | nil => intro st h; exact absurd h (List.not_mem_nil oname)
  | cons n rest ih =>
    intro st hmem hfin
    simp only [removeLoop] at hfin
    by_cases hn : n = oname
    · subst hn
      have hsub := removeLoop_target_subset env mid src rest _ n hfin
      rw [removeObjectStep_del env mid src n st hsrc hdel] at hsub
      dsimp only at hsub
      have := (List.mem_filter.mp hsub).2
      simp at this
    · rcases List.mem_cons.mp hmem with hmem | hmem
      · exact absurd hmem.symm hn
      · exact ih _ hmem hfin

/-- C2: the deletion pass calls DeleteObject exactly on the names present in
the target listing but absent from the source listing (in listing order); on
backend-delete success the object is gone from the target and its metadata
record is deleted; on backend-delete failure the metadata record is left
untouched and an error is counted; records of objects present in the source
listing, or absent from the target listing, are never touched. -/
theorem C2_deletion_pass (env : Env) (mid : String) (src : List (String × ObjectInfo))
    (tgtList : List String) (db : Store) (tgt : List String) (oname : String) :
    ((removeLoop env mid src tgtList ⟨db, tgt, 0, 0, []⟩).attempted
        = tgtList.filter (fun n => !(src.any (fun p => p.1 == n))))
    ∧ (oname ∈ tgtList → src.any (fun p => p.1 == oname) = false → env.deleteOK oname = true →
        GetFileMetadata (removeLoop env mid src tgtList ⟨db, tgt, 0, 0, []⟩).db mid oname = none
        ∧ oname ∉ (removeLoop env mid src tgtList ⟨db, tgt, 0, 0, []⟩).target)
    ∧ (src.any (fun p => p.1 == oname) = true ∨ oname ∉ tgtList ∨ env.deleteOK oname = false →
        GetFileMetadata (removeLoop env mid src tgtList ⟨db, tgt, 0, 0, []⟩).db mid oname
          = GetFileMetadata db mid oname)
    ∧ ((removeLoop env mid src tgtList ⟨db, tgt, 0, 0, []⟩).removeErrors
        = (tgtList.filter (fun n => !(src.any (fun p => p.1 == n)) && !(env.deleteOK n))).length)
    ∧ (src.any (fun p => p.1 == oname) = true ∨ oname ∉ tgtList →
        oname ∉ (removeLoop env mid src tgtList ⟨db, tgt, 0, 0, []⟩).attempted) := by
  refine ⟨?_, ?_, ?_, ?_, ?_⟩
  · rw [removeLoop_attempted]
    rfl
  · intro hmem hsrc hdel
    exact ⟨removeLoop_get_deleted env mid src oname hsrc hdel tgtList _ hmem,
      removeLoop_target_deleted env mid src oname hsrc hdel tgtList _ hmem⟩
  · intro h
    exact removeLoop_get_frame env mid src oname tgtList _ h
  · rw [removeLoop_removeErrors]
    simp
  · intro h
    rw [removeLoop_attempted]
    simp only [List.nil_append, List.mem_filter, Bool.not_eq_true']
    rintro ⟨hmem, hsrc⟩
    rcases h with h | h
    · rw [h] at hsrc
      exact Bool.noConfusion hsrc
    · exact h hmem

/-- Witness for C2: one stale object in the target is deleted from backend
and store. -/
theorem C2_deletion_pass_witness :
    GetFileMetadata
        (removeLoop (envAllOK [] (.ok ["b"])) "k" [] ["b"]
          ⟨[metadataRecord "k" "b" sampleInfo "success" 0], ["b"], 0, 0, []⟩).db "k" "b" = none :=
  ((C2_deletion_pass (envAllOK [] (.ok ["b"])) "k" [] ["b"]
      [metadataRecord "k" "b" sampleInfo "success" 0] ["b"] "b").2.1
    (List.mem_singleton.mpr rfl) rfl rfl).1

/-! Lemmas about the per-object loop's effect on the store. -/

/-- The status recorded by the per-object transfer branches: failed_get when
the source read fails, failed_upload when the target write fails, success
otherwise. -/
def transferStatus (env : Env) (oname : String) : String :=
  if env.getObjectOK oname then
    (if env.uploadOK oname then "success" else "failed_upload")
  else "failed_get"

theorem syncObjectStep_skip (env : Env) (mid oname : String) (info : ObjectInfo) (st : LoopState)
    (h : needsSync (if env.dbGetOK oname then GetFileMetadata st.db mid oname else none) info
        = false) :
    syncObjectStep env mid oname info st
      = { st with counters := { st.counters with skipped := st.counters.skipped + 1 } } := by
  unfold syncObjectStep
  rw [if_neg (by rw [h]; exact Bool.false_ne_true)]

theorem syncObjectStep_db_transfer (env : Env) (mid n : String) (i : ObjectInfo) (st : LoopState)
    (h : needsSync (if env.dbGetOK n then GetFileMetadata st.db mid n else none) i = true) :
    (syncObjectStep env mid n i st).db
      = updateObjectMetadata st.db mid n i (transferStatus env n) env.now := by
  unfold syncObjectStep transferStatus
  rw [if_pos h]
  by_cases h2 : env.getObjectOK n = true
  · by_cases h3 : env.uploadOK n = true
    · simp [h2, h3]
    · simp [h2, h3]
  · simp [h2]

theorem syncObjectStep_db_cases (env : Env) (mid n : String) (i : ObjectInfo) (st : LoopState) :
    (syncObjectStep env mid n i st).db = st.db ∨
    (syncObjectStep env mid n i st).db
      = updateObjectMetadata st.db mid n i (transferStatus env n) env.now := by
  by_cases h : needsSync (if env.dbGetOK n then GetFileMetadata st.db mid n else none) i = true
  · exact Or.inr (syncObjectStep_db_transfer env mid n i st h)
  · left
    rw [Bool.not_eq_true] at h
    rw [syncObjectStep_skip env mid n i st h]

theorem syncObjectStep_get_frame (env : Env) (mid n : String) (i : ObjectInfo) (st : LoopState)
    (oname : String) (hne : oname ≠ n) :
    GetFileMetadata (syncObjectStep env mid n i st).db mid oname
      = GetFileMetadata st.db mid oname := by
  rcases syncObjectStep_db_cases env mid n i st with h | h
  · rw [h]
  · rw [h]
    unfold updateObjectMetadata
    apply get_upsert_other
    rintro ⟨-, h2⟩
    exact hne (h2.symm)

theorem syncLoop_get_frame (env : Env) (mid oname : String) :
    ∀ (objs : List (String × ObjectInfo)) (st : LoopState), oname ∉ objs.map Prod.fst →
    GetFileMetadata (syncLoop env mid objs st).db mid oname
      = GetFileMetadata st.db mid oname := by
  intro objs
  induction objs with
  | nil => intro st _; rfl
  | cons p rest ih =>
    intro st hnotin
    obtain ⟨n, i⟩ := p
    rw [List.map_cons, List.mem_cons] at hnotin
    push_neg at hnotin
    simp only [syncLoop]
    rw [ih _ hnotin.2]
    exact syncObjectStep_get_frame env mid n i st oname hnotin.1

theorem syncLoop_get_record (env : Env) (mid : String) :
    ∀ (objs : List (String × ObjectInfo)) (st : LoopState) (oname : String) (info : ObjectInfo),
    (objs.map Prod.fst).Nodup → (oname, info) ∈ objs →
    GetFileMetadata (syncLoop env mid objs st).db mid oname =
      (if needsSync (if env.dbGetOK oname then GetFileMetadata st.db mid oname else none) info then
        some (metadataRecord mid oname info (transferStatus env oname) env.now)
      else GetFileMetadata st.db mid oname) := by
  intro objs
  induction objs with
  | nil =>
    intro st oname info _ hmem
    exact absurd hmem (List.not_mem_nil _)
  | cons p rest ih =>
    intro st oname info hnodup hmem
    obtain ⟨n, i⟩ := p
    rw [List.map_cons, List.nodup_cons] at hnodup
    rcases List.mem_cons.mp hmem with heq | hmem
    · obtain ⟨rfl, rfl⟩ : oname = n ∧ info = i := by
        rw [Prod.mk.injEq] at heq
        exact ⟨heq.1, heq.2⟩
      have hnotin : oname ∉ rest.map Prod.fst := hnodup.1
      simp only [syncLoop]
      rw [syncLoop_get_frame env mid oname rest _ hnotin]
      by_cases hns : needsSync (if env.dbGetOK oname then GetFileMetadata st.db mid oname else none) info = true
      · rw [if_pos hns, syncObjectStep_db_transfer env mid oname info st hns]
        unfold updateObjectMetadata
        exact get_upsert_self st.db (metadataRecord mid oname info (transferStatus env oname) env.now)
      · rw [Bool.not_eq_true] at hns
        rw [hns, if_neg (by exact Bool.false_ne_true),
          syncObjectStep_skip env mid oname info st hns]
    · have honame : oname ∈ rest.map Prod.fst := by
        rw [List.mem_map]
        exact ⟨(oname, info), hmem, rfl⟩
      have hne : oname ≠ n := fun hc => hnodup.1 (hc ▸ honame)
      simp only [syncLoop]
      rw [ih _ oname info hnodup.2 hmem,
        syncObjectStep_get_frame env mid n i st oname hne]

/-- C9: for every source object whose transfer fails, after the run the
metadata store holds a record for (mappingKey, objectName) with status
failed_get (source read failed) or failed_upload (target write failed),
carrying the source descriptor's size, lastModified, etag and contentType. -/
theorem C9_failed_objects_recorded (env : Env) (mapping : BucketMapping) (w : World)
    (run : SyncRun) (src : List (String × ObjectInfo)) (oname : String) (info : ObjectInfo)
    (hrun : SyncBuckets env mapping w = .ok run)
    (hsrc : env.listSource = .ok src)
    (hnodup : (src.map Prod.fst).Nodup)
    (hmem : (oname, info) ∈ src)
    (hneed : needsSync
        (if env.dbGetOK oname then GetFileMetadata w.db (mappingKey mapping) oname else none)
        info = true)
    (hfail : ¬(env.getObjectOK oname = true ∧ env.uploadOK oname = true)) :
    GetFileMetadata run.db (mappingKey mapping) oname =
      some (metadataRecord (mappingKey mapping) oname info
        (if env.getObjectOK oname then "failed_upload" else "failed_get") env.now) := by
  have hstatus : transferStatus env oname
      = (if env.getObjectOK oname then "failed_upload" else "failed_get") := by
    unfold transferStatus
    by_cases h2 : env.getObjectOK oname = true
    · by_cases h3 : env.uploadOK oname = true
      · exact absurd ⟨h2, h3⟩ hfail
      · simp [h2, h3]
    · simp [h2]
  have hany : src.any (fun p => p.1 == oname) = true := by
    rw [List.any_eq_true]
    exact ⟨(oname, info), hmem, by simp⟩
  unfold SyncBuckets at hrun
  split at hrun
  · exact absurd hrun (by simp)
  · split at hrun
    · exact absurd hrun (by simp)
    · split at hrun
      · rename_i e heq
        rw [hsrc] at heq
        exact absurd heq (by simp)
      · rename_i l heq
        rw [hsrc] at heq
        obtain rfl : src = l := by
          injection heq
        split at hrun
        · split at hrun
          · exact absurd hrun (by simp)
          · simp only [Except.ok.injEq] at hrun
            subst hrun
            dsimp only
            rw [removeLoop_get_frame env (mappingKey mapping) src oname _ _ (Or.inl hany),
              syncLoop_get_record env (mappingKey mapping) src _ oname info hnodup hmem]
            dsimp only
            rw [if_pos hneed, hstatus]
        · split at hrun
          · exact absurd hrun (by simp)
          · simp only [Except.ok.injEq] at hrun
            subst hrun
            dsimp only
            rw [removeLoop_get_frame env (mappingKey mapping) src oname _ _ (Or.inl hany),
              syncLoop_get_record env (mappingKey mapping) src _ oname info hnodup hmem]
            dsimp only
            rw [if_pos hneed, hstatus]

/-- Environment in which every upload fails. -/
def envUploadFail (src : List (String × ObjectInfo)) : Env :=
  { envAllOK src (.ok []) with uploadOK := fun _ => false }

/-- Witness for C9: a failed upload leaves a failed_upload record carrying
the source descriptor fields. -/
theorem C9_failed_objects_recorded_witness :
    GetFileMetadata
        [metadataRecord (mappingKey sampleMapping) "a" sampleInfo "failed_upload" 0]
        (mappingKey sampleMapping) "a"
      = some (metadataRecord (mappingKey sampleMapping) "a" sampleInfo "failed_upload" 0) := by
  have h := C9_failed_objects_recorded (envUploadFail [("a", sampleInfo)]) sampleMapping
    ⟨[], []⟩
    { db := [metadataRecord (mappingKey sampleMapping) "a" sampleInfo "failed_upload" 0],
      target := [], synced := 0, skipped := 0, errored := 1, removed := 0,
      removeErrors := 0, attempted := [], totalSource := 1 }
    [("a", sampleInfo)] "a" sampleInfo (by rfl) rfl (by decide)
    (List.mem_singleton.mpr rfl) (by rfl) (by decide)
  exact h

/-! Lemmas about schema migrations. -/

theorem defaultBucketKey_inj (b1 b2 : String)
    (h : "default:" ++ b1 ++ "->default:" ++ b1 = "default:" ++ b2 ++ "->default:" ++ b2) :
    b1 = b2 := by
  have hd : ("default:" ++ b1 ++ "->default:" ++ b1).data
      = ("default:" ++ b2 ++ "->default:" ++ b2).data := by rw [h]
  simp only [String.data_append] at hd
  have hlen : b1.data.length = b2.data.length := by
    have hl := congrArg List.length hd
    simp only [List.length_append] at hl
    omega
  have h1 := (List.append_inj hd (by simp only [List.length_append, hlen])).1
  have h2 := List.append_cancel_right h1
  have h3 := List.append_cancel_left h2
  exact String.ext h3

theorem rekeyBucketRow_keys_nodup (rows : List LegacyBucketRow)
    (h : (rows.map (fun r => (r.bucketName, r.objectName))).Nodup) :
    ((rows.map rekeyBucketRow).map (fun m => (m.mappingID, m.objectName))).Nodup := by
  rw [List.map_map]
  have hfun : ((fun m => (m.mappingID, m.objectName)) ∘ rekeyBucketRow)
      = (fun p : String × String => ("default:" ++ p.1 ++ "->default:" ++ p.1, p.2))
          ∘ (fun r => (r.bucketName, r.objectName)) := by
    funext r
    rfl
  rw [hfun, ← List.map_map]
  apply List.Nodup.map ?_ h
  rintro ⟨b1, o1⟩ ⟨b2, o2⟩ hp
  simp only [Prod.mk.injEq] at hp
  rw [Prod.mk.injEq]
  exact ⟨defaultBucketKey_inj b1 b2 hp.1, hp.2⟩

theorem foldl_insertOrIgnore_nodup :
    ∀ (rows acc : List FileMetadata),
    ((acc ++ rows).map (fun m => (m.mappingID, m.objectName))).Nodup →
    rows.foldl insertOrIgnore acc = acc ++ rows := by
  intro rows
  induction rows with
  | nil => intro acc _; simp
  | cons r rest ih =>
    intro acc h
    rw [List.foldl_cons]
    have hnotin : acc.any (keyMatches r.mappingID r.objectName) = false := by
      cases hb : acc.any (keyMatches r.mappingID r.objectName) with
      | false => rfl
      | true =>
        exfalso
        rw [List.any_eq_true] at hb
        obtain ⟨m, hm, hk⟩ := hb
        rw [keyMatches_iff] at hk
        rw [List.map_append, List.nodup_append] at h
        exact h.2.2 (by rw [List.mem_map]; exact ⟨m, hm, by rw [hk.1, hk.2]⟩)
          (by rw [List.map_cons]; exact List.mem_cons_self _ _)
    have hstep : insertOrIgnore acc r = acc ++ [r] := by
      unfold insertOrIgnore
      rw [if_neg (by rw [hnotin]; exact Bool.false_ne_true)]
    rw [hstep, ih (acc ++ [r]) (by rwa [List.append_assoc, List.singleton_append]),
      List.append_assoc, List.singleton_append]

theorem insertOrIgnoreAll_of_nodup (rows : List FileMetadata)
    (h : (rows.map (fun m => (m.mappingID, m.objectName))).Nodup) :
    insertOrIgnoreAll rows = rows := by
  unfold insertOrIgnoreAll
  rw [foldl_insertOrIgnore_nodup rows [] (by simpa using h), List.nil_append]

theorem runMigrationSeq_error (fail : Nat → Bool) :
    ∀ (vs : List Nat) (t : Option FMTable), (∃ v ∈ vs, fail v = true) →
    ∃ msg, runMigrationSeq fail vs t = .error msg := by
  intro vs
  induction vs with
  | nil =>
    rintro t ⟨v, hv, _⟩
    exact absurd hv (List.not_mem_nil v)
  | cons v rest ih =>
    rintro t ⟨u, hu, hfu⟩
    by_cases hv : fail v = true
    · exact ⟨"error applying migration " ++ toString v, by simp [runMigrationSeq, hv]⟩
    · rcases List.mem_cons.mp hu with rfl | hu2
      · exact absurd hfu hv
      · obtain ⟨msg, hmsg⟩ := ih (applyMigration v t) ⟨u, hu2, hfu⟩
        refine ⟨msg, ?_⟩
        simp only [runMigrationSeq]
        rw [if_neg hv]
        exact hmsg

theorem runMigrationSeq_ok (fail : Nat → Bool) :
    ∀ (vs : List Nat) (t : Option FMTable), (∀ v ∈ vs, fail v = false) →
    runMigrationSeq fail vs t = .ok (vs.foldl (fun t v => applyMigration v t) t) := by
  intro vs
  induction vs with
  | nil => intro t _; rfl
  | cons v rest ih =>
    intro t h
    simp only [runMigrationSeq]
    rw [if_neg (by rw [h v (List.mem_cons_self v rest)]; exact Bool.false_ne_true),
      List.foldl_cons]
    exact ih _ (fun u hu => h u (List.mem_cons_of_mem v hu))

theorem applyMigration_one_legacyBucket (rows : List LegacyBucketRow) :
    applyMigration 1 (some (.legacyBucket rows)) = some (.legacyBucket rows) := rfl

theorem applyMigration_two_legacyBucket (rows : List LegacyBucketRow) :
    applyMigration 2 (some (.legacyBucket rows))
      = some (.current (insertOrIgnoreAll (rows.map rekeyBucketRow))) := rfl

theorem applyMigration_one_current (rows : List FileMetadata) :
    applyMigration 1 (some (.current rows)) = some (.current rows) := rfl

theorem applyMigration_two_current (rows : List FileMetadata) :
    applyMigration 2 (some (.current rows)) = some (.current rows) := rfl

/-- C6: opening a store whose persisted version is below the current version
applies the missing migrations in ascending order inside one transaction; if
any migration in the sequence fails, open fails and the store is left at the
pre-migration state; if all succeed, the version becomes current, a table
already in the mapping_id schema keeps all its rows, and a legacy
bucket-keyed table is re-keyed to the composite mappingKey format with every
row preserved. -/
theorem C6_migration_atomicity (fail : Nat → Bool) (d : MetaDB)
    (hv : d.version < currentSchemaVersion) :
    ((∃ v ∈ migrationList d.version, fail v = true) →
        applyMigrations fail d = ⟨false, d⟩)
    ∧ ((∀ v, fail v = false) →
        applyMigrations fail d
          = ⟨true, { version := currentSchemaVersion,
                     table := (migrationList d.version).foldl
                       (fun t v => applyMigration v t) d.table }⟩)
    ∧ ((∀ v, fail v = false) →
        ∀ rows, d.table = some (.legacyBucket rows) →
          (rows.map (fun r => (r.bucketName, r.objectName))).Nodup →
          (applyMigrations fail d).db.table = some (.current (rows.map rekeyBucketRow)))
    ∧ ((∀ v, fail v = false) →
        ∀ rows, d.table = some (.current rows) →
          (applyMigrations fail d).db.table = some (.current rows)) := by
  have hnotle : ¬(currentSchemaVersion ≤ d.version) := by omega
  have hver : d.version = 0 ∨ d.version = 1 := by
    unfold currentSchemaVersion at hv
    omega
  refine ⟨?_, ?_, ?_, ?_⟩
  · rintro ⟨v, hvmem, hfv⟩
    unfold applyMigrations
    rw [if_neg hnotle]
    obtain ⟨msg, hmsg⟩ :=
      runMigrationSeq_error fail (migrationList d.version) d.table ⟨v, hvmem, hfv⟩
    rw [hmsg]
  · intro hok
    unfold applyMigrations
    rw [if_neg hnotle, runMigrationSeq_ok fail _ _ (fun v _ => hok v)]
  · intro hok rows htab hnodup
    unfold applyMigrations
    rw [if_neg hnotle, runMigrationSeq_ok fail _ _ (fun v _ => hok v)]
    dsimp only
    rcases hver with h0 | h1
    · rw [h0, show migrationList 0 = [1, 2] from rfl, htab]
      rw [List.foldl_cons, applyMigration_one_legacyBucket, List.foldl_cons,
        applyMigration_two_legacyBucket, List.foldl_nil,
        insertOrIgnoreAll_of_nodup _ (rekeyBucketRow_keys_nodup rows hnodup)]
    · rw [h1, show migrationList 1 = [2] from rfl, htab]
      rw [List.foldl_cons, applyMigration_two_legacyBucket, List.foldl_nil,
        insertOrIgnoreAll_of_nodup _ (rekeyBucketRow_keys_nodup rows hnodup)]
  · intro hok rows htab
    unfold applyMigrations
    rw [if_neg hnotle, runMigrationSeq_ok fail _ _ (fun v _ => hok v)]
    dsimp only
    rcases hver with h0 | h1
    · rw [h0, show migrationList 0 = [1, 2] from rfl, htab]
      rw [List.foldl_cons, applyMigration_one_current, List.foldl_cons,
        applyMigration_two_current, List.foldl_nil]
    · rw [h1, show migrationList 1 = [2] from rfl, htab]
      rw [List.foldl_cons, applyMigration_two_current, List.foldl_nil]

/-- A legacy bucket-keyed row used by the C6 witness. -/
def sampleLegacyRow : LegacyBucketRow :=
  { bucketName := "b", objectName := "o", size := 1, lastModified := 2, etag := "e",
    contentType := "ct", lastSynced := 3, syncStatus := "success" }

/-- Witness for C6: a version-0 store with one legacy bucket-keyed row opens
to the current schema with the row re-keyed. -/
theorem C6_migration_atomicity_witness :
    (applyMigrations (fun _ => false) ⟨0, some (.legacyBucket [sampleLegacyRow])⟩).db.table
      = some (.current ([sampleLegacyRow].map rekeyBucketRow)) :=
  (C6_migration_atomicity (fun _ => false) ⟨0, some (.legacyBucket [sampleLegacyRow])⟩
    (by decide)).2.2.1 (fun _ => rfl) [sampleLegacyRow] rfl (by decide)

/-! Lemmas for the idempotence argument. -/

/-- Shape of a successful SyncBuckets call when both listings and the bucket
check succeed. -/
theorem SyncBuckets_eq_ok (env : Env) (mapping : BucketMapping) (w : World)
    (src : List (String × ObjectInfo)) (tgtList : List String)
    (hsp : env.srcProviderOK = true) (htp : env.tgtProviderOK = true)
    (hsrc : env.listSource = .ok src) (htgt : env.listTarget = .ok tgtList)
    (hens : env.ensureBucketOK = true) :
    SyncBuckets env mapping w = .ok
      { db := (removeLoop env (mappingKey mapping) src tgtList
                ⟨(syncLoop env (mappingKey mapping) src ⟨w.db, w.target, ⟨0, 0, 0⟩⟩).db,
                 (syncLoop env (mappingKey mapping) src ⟨w.db, w.target, ⟨0, 0, 0⟩⟩).target,
                 0, 0, []⟩).db,
        target := (removeLoop env (mappingKey mapping) src tgtList
                ⟨(syncLoop env (mappingKey mapping) src ⟨w.db, w.target, ⟨0, 0, 0⟩⟩).db,
                 (syncLoop env (mappingKey mapping) src ⟨w.db, w.target, ⟨0, 0, 0⟩⟩).target,
                 0, 0, []⟩).target,
        synced := (syncLoop env (mappingKey mapping) src ⟨w.db, w.target, ⟨0, 0, 0⟩⟩).counters.synced,
        skipped := (syncLoop env (mappingKey mapping) src ⟨w.db, w.target, ⟨0, 0, 0⟩⟩).counters.skipped,
        errored := (syncLoop env (mappingKey mapping) src ⟨w.db, w.target, ⟨0, 0, 0⟩⟩).counters.errored,
        removed := (removeLoop env (mappingKey mapping) src tgtList
                ⟨(syncLoop env (mappingKey mapping) src ⟨w.db, w.target, ⟨0, 0, 0⟩⟩).db,
                 (syncLoop env (mappingKey mapping) src ⟨w.db, w.target, ⟨0, 0, 0⟩⟩).target,
                 0, 0, []⟩).removed,
        removeErrors := (removeLoop env (mappingKey mapping) src tgtList
                ⟨(syncLoop env (mappingKey mapping) src ⟨w.db, w.target, ⟨0, 0, 0⟩⟩).db,
                 (syncLoop env (mappingKey mapping) src ⟨w.db, w.target, ⟨0, 0, 0⟩⟩).target,
                 0, 0, []⟩).removeErrors,
        attempted := (removeLoop env (mappingKey mapping) src tgtList
                ⟨(syncLoop env (mappingKey mapping) src ⟨w.db, w.target, ⟨0, 0, 0⟩⟩).db,
                 (syncLoop env (mappingKey mapping) src ⟨w.db, w.target, ⟨0, 0, 0⟩⟩).target,
                 0, 0, []⟩).attempted,
        totalSource := src.length } := by
  simp only [SyncBuckets, hsp, htp, hsrc, htgt, hens, Bool.not_true, Bool.false_eq_true,
    if_false]

theorem needsSync_false_of_matches (s : Store) (mid n : String) (i : ObjectInfo)
    (m : FileMetadata) (h : GetFileMetadata s mid n = some m)
    (h1 : m.lastModified = i.lastModified) (h2 : m.etag = i.etag)
    (h3 : m.syncStatus = "success") :
    needsSync (GetFileMetadata s mid n) i = false := by
  rw [h]
  simp [needsSync, h1, h2, h3]

theorem run1_record_matches (env : Env) (mid : String)
    (hdb : ∀ n, env.dbGetOK n = true) (hget : ∀ n, env.getObjectOK n = true)
    (hup : ∀ n, env.uploadOK n = true) (src : List (String × ObjectInfo)) (st : LoopState)
    (n : String) (i : ObjectInfo) (hnodup : (src.map Prod.fst).Nodup) (hmem : (n, i) ∈ src) :
    ∃ m, GetFileMetadata (syncLoop env mid src st).db mid n = some m ∧
      m.lastModified = i.lastModified ∧ m.etag = i.etag ∧ m.syncStatus = "success" := by
  rw [syncLoop_get_record env mid src st n i hnodup hmem]
  by_cases hns : needsSync (if env.dbGetOK n then GetFileMetadata st.db mid n else none) i = true
  · rw [if_pos hns]
    refine ⟨_, rfl, rfl, rfl, ?_⟩
    show transferStatus env n = "success"
    unfold transferStatus
    rw [if_pos (hget n), if_pos (hup n)]
  · rw [if_neg hns]
    rw [Bool.not_eq_true, hdb n] at hns
    rw [if_pos rfl] at hns
    cases hst : GetFileMetadata st.db mid n with
    | none =>
      rw [hst] at hns
      simp [needsSync] at hns
    | some m =>
      rw [hst] at hns
      simp [needsSync] at hns
      exact ⟨m, rfl, hns.1.1, hns.1.2, hns.2⟩

theorem insertName_mem (t : List String) (x n : String) (h : n ∈ insertName t x) :
    n ∈ t ∨ n = x := by
  unfold insertName at h
  by_cases hx : x ∈ t
  · rw [if_pos hx] at h
    exact Or.inl h
  · rw [if_neg hx] at h
    rcases List.mem_append.mp h with h2 | h2
    · exact Or.inl h2
    · exact Or.inr (List.mem_singleton.mp h2)

theorem syncObjectStep_target_cases (env : Env) (mid x : String) (i : ObjectInfo)
    (st : LoopState) :
    (syncObjectStep env mid x i st).target = st.target ∨
    (syncObjectStep env mid x i st).target = insertName st.target x := by
  unfold syncObjectStep
  by_cases h1 : needsSync (if env.dbGetOK x then GetFileMetadata st.db mid x else none) i = true
  · rw [if_pos h1]
    by_cases h2 : env.getObjectOK x = true
    · by_cases h3 : env.uploadOK x = true
      · rw [if_pos h2, if_pos h3]
        exact Or.inr rfl
      · rw [if_pos h2, if_neg h3]
        exact Or.inl rfl
    · rw [if_neg h2]
      exact Or.inl rfl
  · rw [if_neg h1]
    exact Or.inl rfl

theorem syncLoop_target_mem (env : Env) (mid : String) :
    ∀ (objs : List (String × ObjectInfo)) (st : LoopState) (n : String),
    n ∈ (syncLoop env mid objs st).target → n ∈ st.target ∨ n ∈ objs.map Prod.fst := by
  intro objs
  induction objs with
  | nil => intro st n h; exact Or.inl h
  | cons p rest ih =>
    intro st n h
    obtain ⟨x, i⟩ := p
    simp only [syncLoop] at h
    rcases ih _ n h with h2 | h2
    · rcases syncObjectStep_target_cases env mid x i st with hc | hc
      · rw [hc] at h2
        exact Or.inl h2
      · rw [hc] at h2
        rcases insertName_mem st.target x n h2 with h3 | h3
        · exact Or.inl h3
        · exact Or.inr (by rw [List.map_cons, h3]; exact List.mem_cons_self _ _)
    · exact Or.inr (by rw [List.map_cons]; exact List.mem_cons_of_mem _ h2)

theorem removeLoop_target_in_src (env : Env) (mid : String)
    (src : List (String × ObjectInfo)) (hdel : ∀ n, env.deleteOK n = true)
    (tgtList : List String) (st : RemoveState) (n : String)
    (h : n ∈ (removeLoop env mid src tgtList st).target) :
    n ∈ st.target ∧ (n ∈ tgtList → src.any (fun p => p.1 == n) = true) := by
  refine ⟨removeLoop_target_subset env mid src tgtList st n h, ?_⟩
  intro hmem
  cases hb : src.any (fun p => p.1 == n) with
  | true => rfl
  | false =>
    exact absurd h (removeLoop_target_deleted env mid src n hb (hdel n) tgtList st hmem)

theorem syncLoop_all_skip (env : Env) (mid : String) :
    ∀ (objs : List (String × ObjectInfo)) (st : LoopState),
    (∀ p ∈ objs,
      needsSync (if env.dbGetOK p.1 then GetFileMetadata st.db mid p.1 else none) p.2 = false) →
    syncLoop env mid objs st
      = { st with counters := { st.counters with skipped := st.counters.skipped + objs.length } } := by
  intro objs
  induction objs with
  | nil =>
    intro st _
    simp [syncLoop]
  | cons p rest ih =>
    intro st h
    obtain ⟨n, i⟩ := p
    simp only [syncLoop]
    rw [syncObjectStep_skip env mid n i st (h (n, i) (List.mem_cons_self _ _))]
    rw [ih { st with counters := { st.counters with skipped := st.counters.skipped + 1 } }
        (fun q hq => h q (List.mem_cons_of_mem _ hq))]
    dsimp only
    rw [List.length_cons, Nat.add_assoc, Nat.add_comm 1 rest.length]

theorem removeLoop_all_inSrc (env : Env) (mid : String) (src : List (String × ObjectInfo)) :
    ∀ (tgtList : List String) (st : RemoveState),
    (∀ n ∈ tgtList, src.any (fun p => p.1 == n) = true) →
    removeLoop env mid src tgtList st = st := by
  intro tgtList
  induction tgtList with
  | nil => intro st _; rfl
  | cons n rest ih =>
    intro st h
    simp only [removeLoop]
    rw [removeObjectStep_inSrc env mid src n st (h n (List.mem_cons_self _ _))]
    exact ih _ (fun u hu => h u (List.mem_cons_of_mem _ hu))

/-- C4: running the Engine twice on the same mapping with the same source
listing, accurate target listings and no backend or store failures yields a
second run with zero synced, zero removed and zero errors, every source
object being skipped. -/
theorem C4_second_run_idempotent (env : Env) (mapping : BucketMapping) (w : World)
    (src : List (String × ObjectInfo)) (r1 r2 : SyncRun)
    (hsp : env.srcProviderOK = true) (htp : env.tgtProviderOK = true)
    (hens : env.ensureBucketOK = true)
    (hsrc : env.listSource = .ok src)
    (hnodup : (src.map Prod.fst).Nodup)
    (htgt : env.listTarget = .ok w.target)
    (hdb : ∀ n, env.dbGetOK n = true) (hget : ∀ n, env.getObjectOK n = true)
    (hup : ∀ n, env.uploadOK n = true) (hdel : ∀ n, env.deleteOK n = true)
    (h1 : SyncBuckets env mapping w = .ok r1)
    (h2 : SyncBuckets { env with listTarget := .ok r1.target } mapping ⟨r1.db, r1.target⟩
        = .ok r2) :
    r2.synced = 0 ∧ r2.removed = 0 ∧ r2.errored = 0 ∧ r2.skipped = r2.totalSource := by
  rw [SyncBuckets_eq_ok env mapping w src w.target hsp htp hsrc htgt hens] at h1
  simp only [Except.ok.injEq] at h1
  rw [SyncBuckets_eq_ok { env with listTarget := .ok r1.target } mapping ⟨r1.db, r1.target⟩
      src r1.target hsp htp hsrc rfl hens] at h2
  simp only [Except.ok.injEq] at h2
  subst h2
  have hmatch : ∀ p ∈ src, ∃ m,
      GetFileMetadata r1.db (mappingKey mapping) p.1 = some m ∧
      m.lastModified = p.2.lastModified ∧ m.etag = p.2.etag ∧ m.syncStatus = "success" := by
    intro p hp
    rw [← h1]
    dsimp only
    have hany : src.any (fun q => q.1 == p.1) = true := by
      rw [List.any_eq_true]
      exact ⟨p, hp, by simp⟩
    rw [removeLoop_get_frame env (mappingKey mapping) src p.1 w.target _ (Or.inl hany)]
    dsimp only
    exact run1_record_matches env (mappingKey mapping) hdb hget hup src _ p.1 p.2 hnodup hp
  have htgtin : ∀ n ∈ r1.target, src.any (fun q => q.1 == n) = true := by
    intro n hn
    rw [← h1] at hn
    dsimp only at hn
    have h3 := removeLoop_target_in_src env (mappingKey mapping) src hdel w.target _ n hn
    dsimp only at h3
    rcases syncLoop_target_mem env (mappingKey mapping) src _ n h3.1 with h4 | h4
    · exact h3.2 h4
    · rw [List.mem_map] at h4
      obtain ⟨q, hq, hq1⟩ := h4
      rw [List.any_eq_true]
      exact ⟨q, hq, by rw [hq1]; exact beq_self_eq_true n⟩
  have hskipHyp : ∀ p ∈ src,
      needsSync (if env.dbGetOK p.1 then GetFileMetadata r1.db (mappingKey mapping) p.1 else none)
        p.2 = false := by
    intro p hp
    rw [hdb p.1, if_pos rfl]
    obtain ⟨m, hm, hl, he, hs⟩ := hmatch p hp
    exact needsSync_false_of_matches _ _ _ _ m hm hl he hs
  have hloop2 : syncLoop env (mappingKey mapping) src ⟨r1.db, r1.target, ⟨0, 0, 0⟩⟩
      = ⟨r1.db, r1.target, ⟨0, 0 + src.length, 0⟩⟩ := by
    rw [syncLoop_all_skip env (mappingKey mapping) src ⟨r1.db, r1.target, ⟨0, 0, 0⟩⟩ hskipHyp]
  have hrem2 : removeLoop env (mappingKey mapping) src r1.target ⟨r1.db, r1.target, 0, 0, []⟩
      = ⟨r1.db, r1.target, 0, 0, []⟩ :=
    removeLoop_all_inSrc env (mappingKey mapping) src r1.target _ htgtin
  dsimp only
  simp only [syncLoop_listTarget_irrel, removeLoop_listTarget_irrel]
  rw [hloop2]
  dsimp only
  rw [hrem2]
  refine ⟨rfl, rfl, rfl, ?_⟩
  exact Nat.zero_add _

/-- The run produced by the second, idempotent pass over sampleRunA's state. -/
def sampleRunA2 : SyncRun :=
  { db := sampleRunA.db, target := ["a"], synced := 0, skipped := 1, errored := 0,
    removed := 0, removeErrors := 0, attempted := [], totalSource := 1 }

/-- Witness for C4 on a concrete one-object double run. -/
theorem C4_second_run_idempotent_witness :
    sampleRunA2.synced = 0 ∧ sampleRunA2.removed = 0 ∧ sampleRunA2.errored = 0
    ∧ sampleRunA2.skipped = sampleRunA2.totalSource :=
  C4_second_run_idempotent (envAllOK [("a", sampleInfo)] (.ok [])) sampleMapping ⟨[], []⟩
    [("a", sampleInfo)] sampleRunA sampleRunA2 rfl rfl rfl rfl (by decide) rfl
    (fun _ => rfl) (fun _ => rfl) (fun _ => rfl) (fun _ => rfl) (by rfl) (by rfl)

end CloudDataSync
